import Mathlib

/-!
Verification of the Codeface issue-analyzer developer-bug assignment engine
(`codeface/issueanalyzer/bugzilla_analyzer.py` and
`codeface/issueanalyzer/common_utils.py`).

The Python code is shallowly embedded here:
* numeric values (database aggregates, configuration coefficients, time
  budgets) are modelled as rationals `ℚ`;
* Python dicts are modelled as association lists with Python's
  read/insert/replace semantics;
* the run aborting with an uncaught exception (e.g. `ZeroDivisionError`
  when `issueAnalyzerBugFixedDays` is zero) is modelled with `Option`:
  `none` is the aborted run.
-/

namespace Codeface

/-- `RUN_MODE_ANALYSIS` from `common_utils.py`. -/
def RUN_MODE_ANALYSIS : ℕ := 0

/-- `RUN_MODE_TEST` from `common_utils.py`. -/
def RUN_MODE_TEST : ℕ := 1

/-- `safeDiv(op1, op2, defaultResult)` from `common_utils.py`: the division
`op1/op2` is attempted and any failure (a zero denominator) yields
`defaultResult`. -/
def safeDiv (op1 op2 defaultResult : ℚ) : ℚ :=
  if op2 = 0 then defaultResult else op1 / op2

/-- The seven statistic fields of a per-(developer, component, priority,
isOpen) snapshot row of `view_assignment`, as read by `getResult`. -/
inductive DevField where
  | reviews
  | numAssigned
  | numAttachment
  | numComment
  | sizeAttachment
  | devAvgTime
  | bugAvgETA
deriving DecidableEq, Repr

/-- A developer statistics snapshot: the value dict stored under a composite
`developer ++ component ++ priority ++ isOpen` key in the `developers` dict
built in `handleResult` (lines 646-649 of `bugzilla_analyzer.py`). -/
structure DevSnapshot where
  reviews : ℚ
  numAssigned : ℚ
  numAttachment : ℚ
  numComment : ℚ
  sizeAttachment : ℚ
  devAvgTime : ℚ
  bugAvgETA : ℚ
deriving DecidableEq, Repr

/-- Field projection of a snapshot (`devDetails[x]` in Python). -/
def DevSnapshot.get (s : DevSnapshot) : DevField → ℚ
  | .reviews => s.reviews
  | .numAssigned => s.numAssigned
  | .numAttachment => s.numAttachment
  | .numComment => s.numComment
  | .sizeAttachment => s.sizeAttachment
  | .devAvgTime => s.devAvgTime
  | .bugAvgETA => s.bugAvgETA

/-- Field update of a snapshot (`result[0][key] = value` in Python). -/
def DevSnapshot.set (s : DevSnapshot) : DevField → ℚ → DevSnapshot
  | .reviews, v => { s with reviews := v }
  | .numAssigned, v => { s with numAssigned := v }
  | .numAttachment, v => { s with numAttachment := v }
  | .numComment, v => { s with numComment := v }
  | .sizeAttachment, v => { s with sizeAttachment := v }
  | .devAvgTime, v => { s with devAvgTime := v }
  | .bugAvgETA, v => { s with bugAvgETA := v }

/-- The all-zero snapshot: what `safeGetDeveloper` fabricates for a missing
developer key (every requested field reads as `0`). -/
def DevSnapshot.zero : DevSnapshot := ⟨0, 0, 0, 0, 0, 0, 0⟩

/-- The `developers` dict: composite string key to snapshot, modelled as an
association list with Python dict semantics. -/
abbrev Devs := List (String × DevSnapshot)

/-- Python `devs[dev]` read (`None` when the key is absent). -/
def lookupDev : Devs → String → Option DevSnapshot
  | [], _ => none
  | (k, v) :: rest, dev => if k = dev then some v else lookupDev rest dev

/-- Python `devs[dev] = snap`: replace in place when the key exists,
otherwise insert. -/
def setDev : Devs → String → DevSnapshot → Devs
  | [], dev, snap => [(dev, snap)]
  | (k, v) :: rest, dev, snap =>
      if k = dev then (dev, snap) :: rest else (k, v) :: setDev rest dev snap

/-- `safeGetDeveloper(devs, dev, keys)` from `common_utils.py`, literally:
build the value list `d` (`devDetails[x]` per requested key plus the
existence flag `1`, or all zeros plus `0`), pair the requested keys with the
values positionally, and return the dict together with `d[-1]`. -/
def safeGetDeveloper (devs : Devs) (dev : String) (keys : List DevField) :
    List (DevField × ℚ) × ℚ :=
  let d : List ℚ :=
    match lookupDev devs dev with
    | some devDetails => keys.map (fun x => devDetails.get x) ++ [1]
    | none => keys.map (fun _ => 0) ++ [0]
  let r := keys.zip d
  (r, d.getLastD 0)

/-- The fixed key tuple `["reviews", "numAssigned", "numAttachment",
"numComment", "sizeAttachment", "devAvgTime", "bugAvgETA"]` that every
`safeGetDeveloper`/`safeSetDeveloper` call in `getResult` passes. -/
def allDevFields : List DevField :=
  [.reviews, .numAssigned, .numAttachment, .numComment, .sizeAttachment,
   .devAvgTime, .bugAvgETA]

/-- `safeGetDeveloper` specialised to the full field tuple, returning the
snapshot itself next to the existence flag; `getResult` reads all seven
fields of the returned dict, so the dict is the whole snapshot. -/
def safeGetDeveloperFull (devs : Devs) (dev : String) : DevSnapshot × ℚ :=
  match lookupDev devs dev with
  | some devDetails => (devDetails, 1)
  | none => (DevSnapshot.zero, 0)

/-- `safeSetDeveloper(devs, dev, key, value, keys)` from `common_utils.py`
(`keys` is always the full field tuple at its call site in `getResult`):
fetch the (possibly fabricated all-zero) snapshot, overwrite one field,
store it back, and return the updated dict together with the pre-existing
flag. -/
def safeSetDeveloper (devs : Devs) (dev : String) (key : DevField)
    (value : ℚ) : Devs × ℚ :=
  let result := safeGetDeveloperFull devs dev
  let snap := result.1.set key value
  (setDev devs dev snap, result.2)

lemma zip_map_append {α β : Type} (keys : List α) (f : α → β) (t : List β) :
    keys.zip (keys.map f ++ t) = keys.map (fun k => (k, f k)) := by
  induction keys with
  | nil => rfl
  | cons k ks ih => simp [List.zip_cons_cons, ih]

lemma getLastD_append_singleton (l : List ℚ) (c d : ℚ) :
    (l ++ [c]).getLastD d = c := by
  induction l generalizing d with
  | nil => rfl
  | cons x xs ih => rw [List.cons_append, List.getLastD_cons, ih]

/-- The `safeGetDeveloperFull` shortcut agrees with the literal
`safeGetDeveloper` on the full field tuple. -/
lemma safeGetDeveloper_allFields (devs : Devs) (dev : String) :
    safeGetDeveloper devs dev allDevFields =
      ((allDevFields.map fun k => (k, (safeGetDeveloperFull devs dev).1.get k)),
        (safeGetDeveloperFull devs dev).2) := by
  unfold safeGetDeveloper safeGetDeveloperFull
  cases h : lookupDev devs dev with
  | none =>
      simp only [h]
      rw [zip_map_append, getLastD_append_singleton]
      rfl
  | some s =>
      simp only [h]
      rw [zip_map_append, getLastD_append_singleton]

/-- C9: `safeDiv(x, 0, default) = default` for every `x` and `default`, and
`safeDiv(x, y, default) = x/y` whenever `y ≠ 0`; `safeDiv` is a total
function, so no division error ever reaches its caller. -/
theorem safeDiv_spec :
    (∀ x d : ℚ, safeDiv x 0 d = d) ∧
    (∀ x y d : ℚ, y ≠ 0 → safeDiv x y d = x / y) := by
  constructor
  · intro x d
    simp [safeDiv]
  · intro x y d hy
    simp [safeDiv, hy]

theorem safeDiv_spec_witness :
    safeDiv 42 0 7 = 7 ∧ ((2 : ℚ) ≠ 0 ∧ safeDiv 42 2 0 = 42 / 2) :=
  ⟨safeDiv_spec.1 42 7, by norm_num, safeDiv_spec.2 42 2 0 (by norm_num)⟩

/-- C10: for every developers dict, lookup key and non-empty field list,
`safeGetDeveloper` is total and pure (it is a function of the dict, which it
returns unchanged facts about without updating): when the key is stored it
returns the requested fields copied from the stored snapshot with existence
flag `1`, and when the key is absent it returns every requested field as `0`
with flag `0`. -/
theorem safeGetDeveloper_spec (devs : Devs) (dev : String)
    (keys : List DevField) (hne : keys ≠ []) :
    (∀ snap, lookupDev devs dev = some snap →
      safeGetDeveloper devs dev keys =
        (keys.map fun k => (k, snap.get k), 1)) ∧
    (lookupDev devs dev = none →
      safeGetDeveloper devs dev keys = (keys.map fun k => (k, 0), 0)) := by
  constructor
  · intro snap hsnap
    unfold safeGetDeveloper
    simp only [hsnap]
    rw [zip_map_append, getLastD_append_singleton]
  · intro hnone
    unfold safeGetDeveloper
    simp only [hnone]
    rw [zip_map_append, getLastD_append_singleton]

theorem safeGetDeveloper_spec_witness :
    safeGetDeveloper [("d1", DevSnapshot.mk 3 4 5 6 7 8 9)] "d1"
        [DevField.reviews, DevField.numAssigned] =
      ([(DevField.reviews, 3), (DevField.numAssigned, 4)], 1) ∧
    safeGetDeveloper [("d1", DevSnapshot.mk 3 4 5 6 7 8 9)] "d2"
        [DevField.reviews, DevField.numAssigned] =
      ([(DevField.reviews, 0), (DevField.numAssigned, 0)], 0) := by
  constructor
  · have := (safeGetDeveloper_spec
      [("d1", DevSnapshot.mk 3 4 5 6 7 8 9)] "d1"
      [DevField.reviews, DevField.numAssigned] (by decide)).1
      (DevSnapshot.mk 3 4 5 6 7 8 9) (by rfl)
    simpa [DevSnapshot.get] using this
  · have := (safeGetDeveloper_spec
      [("d1", DevSnapshot.mk 3 4 5 6 7 8 9)] "d2"
      [DevField.reviews, DevField.numAssigned] (by decide)).2
      (by rfl)
    simpa using this

/-- Per-developer historical statistics read through
`dbm.get_issue_developer_statistics(projectId, developer, 0/1)`:
minutes spent on fixed bugs (`timeAvailable`, `isOpen = 0`) and on still-open
bugs (`timeUnavailable`, `isOpen = 1`); `0` when the view has no row. -/
structure DevTimes where
  timeAvailable : ℚ
  timeUnavailable : ℚ
deriving DecidableEq, Repr

/-- The five scoring coefficients (`issueAnalyzerAvailability`, ...,
`issueAnalyzerReliability`, possibly overwritten by `differentCoeff`). -/
structure Coefficients where
  coeffAvailability : ℚ
  coeffCollaborativity : ℚ
  coeffCompetency : ℚ
  coeffProductivity : ℚ
  coeffReliability : ℚ
deriving DecidableEq, Repr

/-- The configuration values `getResult` reads from `conf`. -/
structure Conf where
  timeIncrement : ℚ
  bugOpenedDays : ℚ
  bugFixedDays : ℚ
  coeffs : Coefficients
deriving DecidableEq, Repr

/-- One candidate edge of `bugAssignments[bug]`: the
`{"component", "priority", "developer", "isOpen"}` dict built in
`handleResult` (`isOpen` is carried but never read by `getResult`, which
hardcodes the `0`/`1` suffix of the composite keys). -/
structure Edge where
  component : String
  priority : String
  developer : String
  isOpen : ℚ
deriving DecidableEq, Repr

/-- The per-bug aggregate baseline `bugStatistics[bug]` (the averaged
`view_assignment` row; the component/priority/severity fields are not read
by the scoring code and omitted). -/
structure BugStat where
  avgNumAssigned : ℚ
  avgDevAvgTime : ℚ
  avgNumComment : ℚ
  avgNumAttachment : ℚ
  avgReviews : ℚ
  avgSizeAttachment : ℚ
deriving DecidableEq, Repr

/-- Lines 786-793 of `getResult`: the "complete developers details".  The
five count fields are the sums of the fixed-bug and open-bug snapshots;
`devAvgTime` and `bugAvgETA` come from the fixed-bug snapshot when the
fixed-bug existence flag is truthy (non-zero), else from the open-bug
snapshot. -/
def combinedDevDetails (fixedSnap openSnap : DevSnapshot)
    (fixedBugsExists : ℚ) : DevSnapshot :=
  { reviews := fixedSnap.reviews + openSnap.reviews
    numAssigned := fixedSnap.numAssigned + openSnap.numAssigned
    numAttachment := fixedSnap.numAttachment + openSnap.numAttachment
    numComment := fixedSnap.numComment + openSnap.numComment
    sizeAttachment := fixedSnap.sizeAttachment + openSnap.sizeAttachment
    devAvgTime :=
      if fixedBugsExists ≠ 0 then fixedSnap.devAvgTime else openSnap.devAvgTime
    bugAvgETA :=
      if fixedBugsExists ≠ 0 then fixedSnap.bugAvgETA else openSnap.bugAvgETA }

/-- Line 813 of `getResult`. -/
def availability (stat : BugStat) (c : DevSnapshot) : ℚ :=
  safeDiv stat.avgNumAssigned c.numAssigned (stat.avgNumAssigned + 1)

/-- Lines 816-817 of `getResult`. -/
def collaborativity (stat : BugStat) (c : DevSnapshot) : ℚ :=
  safeDiv c.numAttachment stat.avgNumAttachment c.numAttachment +
    safeDiv c.numComment stat.avgNumComment c.numComment

/-- Lines 820-821 of `getResult`. -/
def competency (stat : BugStat) (c : DevSnapshot) : ℚ :=
  safeDiv c.numAssigned stat.avgNumAssigned c.numAssigned +
    safeDiv c.reviews stat.avgReviews c.reviews

/-- Lines 824-828 of `getResult`. -/
def productivity (stat : BugStat) (c : DevSnapshot) : ℚ :=
  (safeDiv c.reviews stat.avgReviews 0 *
      (safeDiv c.sizeAttachment stat.avgSizeAttachment c.sizeAttachment *
        safeDiv c.numAttachment stat.avgNumAttachment c.numAttachment) +
    safeDiv c.numComment stat.avgNumComment c.numComment) *
    safeDiv stat.avgDevAvgTime c.devAvgTime (stat.avgDevAvgTime + 1)

/-- Lines 831-832 of `getResult`. -/
def reliability (stat : BugStat) (c : DevSnapshot) : ℚ :=
  safeDiv c.numAssigned stat.avgNumAssigned c.numAssigned *
    safeDiv stat.avgDevAvgTime c.devAvgTime (stat.avgDevAvgTime + 1)

/-- Lines 835-836 of `getResult`: the total rank. -/
def rankOf (k : Coefficients) (stat : BugStat) (c : DevSnapshot) : ℚ :=
  availability stat c * k.coeffAvailability +
    collaborativity stat c * k.coeffCollaborativity +
    competency stat c * k.coeffCompetency +
    productivity stat c * k.coeffProductivity +
    reliability stat c * k.coeffReliability

/-- Lines 809-810 of `getResult`: the "business" test.  `none` models the
uncaught `ZeroDivisionError` when `issueAnalyzerBugFixedDays` is zero;
otherwise `some b` where `b` is the value of `developerBusy`. -/
def developerBusyCheck (conf : Conf)
    (timeAvailable timeUnavailable timeAssignments : ℚ) : Option Bool :=
  if conf.bugFixedDays = 0 then none
  else
    some (decide (conf.timeIncrement *
        (timeAvailable * conf.bugOpenedDays / conf.bugFixedDays) -
        (timeUnavailable + timeAssignments) ≤ 0))

/-- The `developerTimeAssignments` dict, modelled as an association list. -/
abbrev TimeMap := List (String × ℚ)

/-- Python dict read returning `None` when absent. -/
def lookupQ : TimeMap → String → Option ℚ
  | [], _ => none
  | (k, v) :: rest, dev => if k = dev then some v else lookupQ rest dev

/-- Python `m[dev] = v`: replace in place when present, else insert. -/
def setQ : TimeMap → String → ℚ → TimeMap
  | [], dev, v => [(dev, v)]
  | (k, w) :: rest, dev, v =>
      if k = dev then (dev, v) :: rest else (k, w) :: setQ rest dev v

/-- Line 807 of `getResult`: the developer's accumulated hypothetical load,
`developerTimeAssignments[developer]` when present and `0` otherwise. -/
def timeOf (m : TimeMap) (d : String) : ℚ := (lookupQ m d).getD 0

/-- Line 868 of `getResult`: `developerBusyDict[developer] = True`. -/
def insertBusy (busy : List String) (d : String) : List String :=
  if d ∈ busy then busy else busy ++ [d]

/-- The mutable per-pass state of `getResult`: the `developers` dict (whose
`numAssigned` entries the engine overwrites), `developerTimeAssignments`,
`developerBusyDict` (modelled by its key set) and the accumulated
`issue_assignment` list of `(bug, projectId, assignee)` rows. -/
structure PassState where
  developers : Devs
  developerTimeAssignments : TimeMap
  developerBusy : List String
  issueAssignment : List (ℕ × ℕ × String)
deriving DecidableEq, Repr

/-- The per-bug loop registers of `getResult` (lines 737-743) together with
the threaded pass state. -/
structure BugState where
  assignee : Option String
  assigneeTime : ℚ
  assigneeRank : ℚ
  assigneeNumAssigned : ℚ
  analysedDevelopers : List String
  pass : PassState
deriving DecidableEq, Repr

/-- Lines 737-743 of `getResult`: the per-bug initialisation
(`assignee = None`, `assigneeTime = 0`, `assigneeRank = -255`,
`assigneeNumAssigned = -255`, `analysedDevelopers = []`). -/
def initBugState (pass : PassState) : BugState :=
  { assignee := none
    assigneeTime := 0
    assigneeRank := -255
    assigneeNumAssigned := -255
    analysedDevelopers := []
    pass := pass }

/-- Line 761 of `getResult`: the composite key
`"{developer}{component}{priority}0"` of the fixed-bug snapshot. -/
def fixedKey (dev : Edge) : String :=
  dev.developer ++ dev.component ++ dev.priority ++ "0"

/-- Line 774 of `getResult`: the composite key
`"{developer}{component}{priority}1"` of the open-bug snapshot (the value
the local `devKey` still holds at the `safeSetDeveloper` call of
line 857). -/
def openKey (dev : Edge) : String :=
  dev.developer ++ dev.component ++ dev.priority ++ "1"

/-- Lines 760-793 of `getResult`: the candidate's combined details, built
from the fixed-bug and open-bug `safeGetDeveloper` reads. -/
def candidateCombined (devs : Devs) (dev : Edge) : DevSnapshot :=
  combinedDevDetails (safeGetDeveloperFull devs (fixedKey dev)).1
    (safeGetDeveloperFull devs (openKey dev)).1
    (safeGetDeveloperFull devs (fixedKey dev)).2

/-- Line 751-753 of `getResult`: record the candidate in
`analysedDevelopers`. -/
def addAnalysed (s : BugState) (d : String) : BugState :=
  { s with analysedDevelopers := s.analysedDevelopers ++ [d] }

/-- Line 868 of `getResult`: the busy branch adds the developer to
`developerBusyDict`. -/
def busyStep (s1 : BugState) (developer : String) : BugState :=
  { s1 with pass := { s1.pass with
    developerBusy := insertBusy s1.pass.developerBusy developer } }

/-- Lines 811-865 of `getResult`, the eligible branch: recompute the rank
from the combined details; when it strictly beats `assigneeRank`, revert
the previous assignee's provisional time debit and drop it from the busy
dict if present (lines 840-846), record the new assignee, write
`numAssignedOpen + 1` into the open-bug snapshot via `safeSetDeveloper`
(line 857; the source binds its result to `res` and discards it), and debit
the new assignee's combined `devAvgTime` (lines 860-862); otherwise leave
the state unchanged. -/
def eligibleStep (conf : Conf) (stat : BugStat) (s1 : BugState)
    (dev : Edge) : BugState :=
  let developer := dev.developer
  let comb := candidateCombined s1.pass.developers dev
  let timeAssignments := timeOf s1.pass.developerTimeAssignments developer
  let rank := rankOf conf.coeffs stat comb
  if rank > s1.assigneeRank then
    let pass1 :=
      match s1.assignee with
      | some a =>
          { s1.pass with
            developerTimeAssignments :=
              setQ s1.pass.developerTimeAssignments a
                (timeOf s1.pass.developerTimeAssignments a - s1.assigneeTime)
            developerBusy := s1.pass.developerBusy.erase a }
      | none => s1.pass
    let assigneeNumAssigned :=
      (safeGetDeveloperFull s1.pass.developers (openKey dev)).1.numAssigned + 1
    let setRes :=
      safeSetDeveloper pass1.developers (openKey dev) .numAssigned
        assigneeNumAssigned
    let assigneeTime := comb.devAvgTime
    { assignee := some developer
      assigneeTime := assigneeTime
      assigneeRank := rank
      assigneeNumAssigned := assigneeNumAssigned
      analysedDevelopers := s1.analysedDevelopers
      pass := { pass1 with
        developers := setRes.1
        developerTimeAssignments :=
          setQ pass1.developerTimeAssignments developer
            (timeAssignments + assigneeTime) } }
  else s1

/-- One iteration of the candidate loop of `getResult`
(lines 745-868), for the edge `dev`:
* skip the candidate when already busy (line 747) or already analysed for
  this bug (line 751), else record it as analysed;
* run the business test on `timeAvailable`/`timeUnavailable` and the
  accumulated hypothetical load (lines 804-810); a zero
  `issueAnalyzerBugFixedDays` aborts the run (`none`);
* when busy, take `busyStep`; when eligible, take `eligibleStep` (the
  snapshot reads of lines 760-793 are pure, so recomputing them inside
  `eligibleStep` is equivalent to the source's read-before-test order).
The dead local `assignmentResults` dict of the source is not modelled: it
never affects the returned `issue_assignment`. -/
def processCandidate (conf : Conf) (devStats : String → DevTimes)
    (stat : BugStat) (s : BugState) (dev : Edge) : Option BugState :=
  if dev.developer ∈ s.pass.developerBusy then some s
  else if dev.developer ∈ s.analysedDevelopers then some s
  else
    let s1 := addAnalysed s dev.developer
    let times := devStats dev.developer
    match developerBusyCheck conf times.timeAvailable times.timeUnavailable
        (timeOf s1.pass.developerTimeAssignments dev.developer) with
    | none => none
    | some true => some (busyStep s1 dev.developer)
    | some false => some (eligibleStep conf stat s1 dev)

/-- The candidate loop `for dev in bugAssignments[bug]` of `getResult`. -/
def runCandidates (conf : Conf) (devStats : String → DevTimes)
    (stat : BugStat) : BugState → List Edge → Option BugState
  | s, [] => some s
  | s, e :: es =>
      match processCandidate conf devStats stat s e with
      | none => none
      | some s' => runCandidates conf devStats stat s' es

/-- One iteration of the bug loop of `getResult` (lines 736-873): run the
candidate loop from the freshly initialised per-bug registers, then append
`(bug, projectId, assignee)` to `issue_assignment` when an assignee
exists. -/
def processBug (conf : Conf) (devStats : String → DevTimes) (projectId : ℕ)
    (pass : PassState) (bug : ℕ) (stat : BugStat) (edges : List Edge) :
    Option PassState :=
  match runCandidates conf devStats stat (initBugState pass) edges with
  | none => none
  | some s =>
      match s.assignee with
      | some a =>
          some { s.pass with
            issueAssignment := s.pass.issueAssignment ++ [(bug, projectId, a)] }
      | none => some s.pass

/-- The bug loop of `getResult`; each list entry pairs a bug id with
`bugStatistics[bug]` and `bugAssignments[bug]`. -/
def runBugs (conf : Conf) (devStats : String → DevTimes) (projectId : ℕ) :
    PassState → List (ℕ × BugStat × List Edge) → Option PassState
  | pass, [] => some pass
  | pass, (bug, stat, edges) :: rest =>
      match processBug conf devStats projectId pass bug stat edges with
      | none => none
      | some pass' => runBugs conf devStats projectId pass' rest

/-- Lines 732-735 of `getResult`: empty `issue_assignment`,
`developerTimeAssignments` and `developerBusyDict`. -/
def initPassState (developers : Devs) : PassState :=
  { developers := developers
    developerTimeAssignments := []
    developerBusy := []
    issueAssignment := [] }

/-- `getResult` (lines 696-875): the returned `issue_assignment` list, or
`none` when the pass aborts on a zero `issueAnalyzerBugFixedDays`. -/
def getResult (conf : Conf) (devStats : String → DevTimes) (projectId : ℕ)
    (bugs : List (ℕ × BugStat × List Edge)) (developers : Devs) :
    Option (List (ℕ × ℕ × String)) :=
  Option.map PassState.issueAssignment
    (runBugs conf devStats projectId (initPassState developers) bugs)

/-- The tuple returned by `getScore` (lines 877-923). -/
structure ScoreResult where
  nA : ℕ
  tA : ℕ
  tP : ℚ
  fP : ℚ
  fN : ℚ
  P : ℚ
  R : ℚ
  F : ℚ
deriving DecidableEq, Repr

/-- `getScore`: `nA` is the number of assignments, `tA` the number of bugs
in `bugStatistics`; in TEST run mode the reality-check triple
`(tP, fP, fN)` is read and `P`, `R`, `F` are derived through `safeDiv`,
otherwise they stay `0`.  (The database write of the assignments is an
external effect with no bearing on the returned tuple.) -/
def getScore (runMode : ℕ) (issue_assignment : List (ℕ × ℕ × String))
    (bugStatisticsCount : ℕ) (realityCheck : ℚ × ℚ × ℚ) : ScoreResult :=
  let nA := issue_assignment.length
  let tA := bugStatisticsCount
  if runMode = RUN_MODE_TEST then
    let tP := realityCheck.1
    let fP := realityCheck.2.1
    let fN := realityCheck.2.2
    let P := safeDiv tP (tP + fN) 0
    let R := safeDiv tP (tP + fP) 0
    let F := safeDiv (2 * P * R) (P + R) 0
    ⟨nA, tA, tP, fP, fN, P, R, F⟩
  else
    ⟨nA, tA, 0, 0, 0, 0, 0, 0⟩

/-- `calculateScore` (lines 988-1013): rerun `getResult` with the given
coefficient vector (the grid search runs in TEST mode), score it, and force
`F = 0` when fewer assignments than bugs were produced.  The preceding
`deleteProjectAssignments` call only clears database rows and does not
influence the returned value. -/
def calculateScore (conf : Conf) (devStats : String → DevTimes)
    (projectId : ℕ) (bugs : List (ℕ × BugStat × List Edge))
    (developers : Devs) (realityCheck : ℚ × ℚ × ℚ)
    (coefficients : Coefficients) : Option ℚ :=
  match getResult { conf with coeffs := coefficients } devStats projectId
      bugs developers with
  | none => none
  | some issue_assignment =>
      let r := getScore RUN_MODE_TEST issue_assignment bugs.length realityCheck
      some (if r.nA < r.tA then 0 else r.F)

/-- The grid-search loop of `handleResult` (lines 672-687): starting from
`bestScore = 0` and the all-zero default coefficients, score each candidate
vector and keep it only when its score strictly beats the best so far.
(The source consumes `gridSearchList` by popping from its end; the list
argument here is the sequence of vectors in the order they are tried.)
`none` models a run aborted by an exception escaping `calculateScore`. -/
def gridSearch (runScore : Coefficients → Option ℚ) :
    List Coefficients → ℚ × Coefficients → Option (ℚ × Coefficients)
  | [], best => some best
  | c :: rest, best =>
      match runScore c with
      | none => none
      | some score =>
          gridSearch runScore rest (if score > best.1 then (score, c) else best)

lemma lookupQ_setQ_self :
    ∀ (m : TimeMap) (k : String) (v : ℚ), lookupQ (setQ m k v) k = some v
  | [], k, v => by simp [setQ, lookupQ]
  | (k', w) :: rest, k, v => by
      by_cases h : k' = k
      · simp [setQ, h, lookupQ]
      · simp only [setQ, if_neg h, lookupQ, if_neg h]
        exact lookupQ_setQ_self rest k v

lemma lookupQ_setQ_ne :
    ∀ (m : TimeMap) (k d : String) (v : ℚ), k ≠ d →
      lookupQ (setQ m k v) d = lookupQ m d
  | [], k, d, v, h => by simp [setQ, lookupQ, h]
  | (k', w) :: rest, k, d, v, h => by
      by_cases hk : k' = k
      · subst hk
        simp [setQ, lookupQ, h]
      · simp only [setQ, if_neg hk, lookupQ]
        by_cases hd : k' = d
        · simp [hd]
        · simp only [if_neg hd]
          exact lookupQ_setQ_ne rest k d v h

/-- The hypothetical load after `m[k] = v` at `k` itself. -/
lemma timeOf_setQ_self (m : TimeMap) (k : String) (v : ℚ) :
    timeOf (setQ m k v) k = v := by
  simp [timeOf, lookupQ_setQ_self]

/-- The hypothetical load after `m[k] = v` at any other key. -/
lemma timeOf_setQ_ne (m : TimeMap) (k d : String) (v : ℚ) (h : k ≠ d) :
    timeOf (setQ m k v) d = timeOf m d := by
  simp [timeOf, lookupQ_setQ_ne m k d v h]

lemma mem_insertBusy (busy : List String) (d x : String) :
    x ∈ insertBusy busy d ↔ x ∈ busy ∨ x = d := by
  unfold insertBusy
  by_cases h : d ∈ busy
  · simp only [if_pos h]
    constructor
    · exact fun hx => Or.inl hx
    · rintro (hx | rfl)
      · exact hx
      · exact h
  · simp [if_neg h]

/-- Spec-side definition, following the words of spec sections 4.3/C1: the
combined snapshot sums the fixed-bug and open-bug values of the five count
fields and takes `devAvgTime`/`bugAvgETA` from the fixed-bug snapshot when
fixed-bug history exists, from the open-bug snapshot otherwise. -/
def spec_combinedSnapshot (fixedSnap openSnap : DevSnapshot)
    (fixedHistoryExists : Bool) : DevSnapshot :=
  { reviews := fixedSnap.reviews + openSnap.reviews
    numAssigned := fixedSnap.numAssigned + openSnap.numAssigned
    numAttachment := fixedSnap.numAttachment + openSnap.numAttachment
    numComment := fixedSnap.numComment + openSnap.numComment
    sizeAttachment := fixedSnap.sizeAttachment + openSnap.sizeAttachment
    devAvgTime :=
      if fixedHistoryExists then fixedSnap.devAvgTime else openSnap.devAvgTime
    bugAvgETA :=
      if fixedHistoryExists then fixedSnap.bugAvgETA else openSnap.bugAvgETA }

/-- Spec-side sub-scores and rank, written from the formulas of spec
section 4.3. -/
def spec_availability (stat : BugStat) (c : DevSnapshot) : ℚ :=
  safeDiv stat.avgNumAssigned c.numAssigned (stat.avgNumAssigned + 1)

/-- Spec section 4.3: `collaborativity`. -/
def spec_collaborativity (stat : BugStat) (c : DevSnapshot) : ℚ :=
  safeDiv c.numAttachment stat.avgNumAttachment c.numAttachment +
    safeDiv c.numComment stat.avgNumComment c.numComment

/-- Spec section 4.3: `competency`. -/
def spec_competency (stat : BugStat) (c : DevSnapshot) : ℚ :=
  safeDiv c.numAssigned stat.avgNumAssigned c.numAssigned +
    safeDiv c.reviews stat.avgReviews c.reviews

/-- Spec section 4.3: `productivity`. -/
def spec_productivity (stat : BugStat) (c : DevSnapshot) : ℚ :=
  (safeDiv c.reviews stat.avgReviews 0 *
      (safeDiv c.sizeAttachment stat.avgSizeAttachment c.sizeAttachment *
        safeDiv c.numAttachment stat.avgNumAttachment c.numAttachment) +
    safeDiv c.numComment stat.avgNumComment c.numComment) *
    safeDiv stat.avgDevAvgTime c.devAvgTime (stat.avgDevAvgTime + 1)

/-- Spec section 4.3: `reliability`. -/
def spec_reliability (stat : BugStat) (c : DevSnapshot) : ℚ :=
  safeDiv c.numAssigned stat.avgNumAssigned c.numAssigned *
    safeDiv stat.avgDevAvgTime c.devAvgTime (stat.avgDevAvgTime + 1)

/-- Spec section 4.3:
`rank = availability*wA + collaborativity*wC + competency*wK +
productivity*wP + reliability*wR`. -/
def spec_rank (k : Coefficients) (stat : BugStat) (c : DevSnapshot) : ℚ :=
  spec_availability stat c * k.coeffAvailability +
    spec_collaborativity stat c * k.coeffCollaborativity +
    spec_competency stat c * k.coeffCompetency +
    spec_productivity stat c * k.coeffProductivity +
    spec_reliability stat c * k.coeffReliability

/-- C7: in TEST run mode `getScore` computes `P = safeDiv(tP, tP+fN, 0)`,
`R = safeDiv(tP, tP+fP, 0)` and `F = safeDiv(2*P*R, P+R, 0)` from the
reality-check triple — precision dividing by `tP+fN` and recall by `tP+fP`,
the swapped convention — and each value is `0` when its denominator is
zero. -/
theorem getScore_test_formulas (ia : List (ℕ × ℕ × String)) (n : ℕ)
    (tP fP fN : ℚ) :
    ((getScore RUN_MODE_TEST ia n (tP, fP, fN)).P = safeDiv tP (tP + fN) 0 ∧
      (getScore RUN_MODE_TEST ia n (tP, fP, fN)).R = safeDiv tP (tP + fP) 0 ∧
      (getScore RUN_MODE_TEST ia n (tP, fP, fN)).F =
        safeDiv (2 * (getScore RUN_MODE_TEST ia n (tP, fP, fN)).P *
            (getScore RUN_MODE_TEST ia n (tP, fP, fN)).R)
          ((getScore RUN_MODE_TEST ia n (tP, fP, fN)).P +
            (getScore RUN_MODE_TEST ia n (tP, fP, fN)).R) 0) ∧
    ((tP + fN = 0 → (getScore RUN_MODE_TEST ia n (tP, fP, fN)).P = 0) ∧
      (tP + fP = 0 → (getScore RUN_MODE_TEST ia n (tP, fP, fN)).R = 0) ∧
      ((getScore RUN_MODE_TEST ia n (tP, fP, fN)).P +
          (getScore RUN_MODE_TEST ia n (tP, fP, fN)).R = 0 →
        (getScore RUN_MODE_TEST ia n (tP, fP, fN)).F = 0)) := by
  refine ⟨⟨rfl, rfl, rfl⟩, ?_, ?_, ?_⟩
  · intro h
    simp [getScore, safeDiv, h]
  · intro h
    simp [getScore, safeDiv, h]
  · intro h
    show safeDiv _ ((getScore RUN_MODE_TEST ia n (tP, fP, fN)).P +
        (getScore RUN_MODE_TEST ia n (tP, fP, fN)).R) 0 = 0
    rw [h]
    simp [safeDiv]

theorem getScore_test_formulas_witness :
    (getScore RUN_MODE_TEST [] 3 ((0 : ℚ), 0, 0)).P = 0 ∧
    (getScore RUN_MODE_TEST [] 3 ((0 : ℚ), 0, 0)).R = 0 ∧
    (getScore RUN_MODE_TEST [] 3 ((0 : ℚ), 0, 0)).F = 0 := by
  have h := getScore_test_formulas [] 3 0 0 0
  have hP := h.2.1 (by norm_num)
  have hR := h.2.2.1 (by norm_num)
  have hF := h.2.2.2 (by rw [hP, hR]; norm_num)
  exact ⟨hP, hR, hF⟩

lemma addAnalysed_pass (s : BugState) (d : String) :
    (addAnalysed s d).pass = s.pass := rfl

/-- The eligible branch leaves the state unchanged when the rank does not
beat the current best. -/
lemma eligibleStep_of_not_gt (conf : Conf) (stat : BugStat) (s1 : BugState)
    (dev : Edge)
    (h : ¬ rankOf conf.coeffs stat (candidateCombined s1.pass.developers dev) >
      s1.assigneeRank) :
    eligibleStep conf stat s1 dev = s1 := by
  simp [eligibleStep, h]

/-- The pass state written by the winning branch of `eligibleStep` when the
previous `pass` state after the optional displacement is `p1`. -/
def winnerPass (devsBefore : Devs) (timesBefore : TimeMap) (p1 : PassState)
    (dev : Edge) : PassState :=
  { p1 with
    developers :=
      (safeSetDeveloper p1.developers (openKey dev) .numAssigned
        ((safeGetDeveloperFull devsBefore (openKey dev)).1.numAssigned + 1)).1
    developerTimeAssignments :=
      setQ p1.developerTimeAssignments dev.developer
        (timeOf timesBefore dev.developer +
          (candidateCombined devsBefore dev).devAvgTime) }

/-- The whole bug-loop state written by the winning branch of
`eligibleStep`, parameterised by the pass state `p1` left after the
optional displacement. -/
def winnerState (conf : Conf) (stat : BugStat) (s1 : BugState) (dev : Edge)
    (p1 : PassState) : BugState :=
  { assignee := some dev.developer
    assigneeTime := (candidateCombined s1.pass.developers dev).devAvgTime
    assigneeRank :=
      rankOf conf.coeffs stat (candidateCombined s1.pass.developers dev)
    assigneeNumAssigned :=
      (safeGetDeveloperFull s1.pass.developers (openKey dev)).1.numAssigned + 1
    analysedDevelopers := s1.analysedDevelopers
    pass := winnerPass s1.pass.developers
      s1.pass.developerTimeAssignments p1 dev }

/-- The eligible branch with a strictly better rank and no previous
assignee. -/
lemma eligibleStep_of_gt_none (conf : Conf) (stat : BugStat) (s1 : BugState)
    (dev : Edge)
    (h : rankOf conf.coeffs stat (candidateCombined s1.pass.developers dev) >
      s1.assigneeRank)
    (ha : s1.assignee = none) :
    eligibleStep conf stat s1 dev = winnerState conf stat s1 dev s1.pass := by
  simp [eligibleStep, h, ha, winnerPass, winnerState]

/-- The displaced pass state: the previous assignee `a`'s provisional time
debit is subtracted back and `a` is dropped from the busy dict. -/
def displacedPass (p : PassState) (a : String) (assigneeTime : ℚ) :
    PassState :=
  { p with
    developerTimeAssignments :=
      setQ p.developerTimeAssignments a
        (timeOf p.developerTimeAssignments a - assigneeTime)
    developerBusy := p.developerBusy.erase a }

/-- The eligible branch with a strictly better rank displacing the
previous assignee `a`. -/
lemma eligibleStep_of_gt_some (conf : Conf) (stat : BugStat) (s1 : BugState)
    (dev : Edge) (a : String)
    (h : rankOf conf.coeffs stat (candidateCombined s1.pass.developers dev) >
      s1.assigneeRank)
    (ha : s1.assignee = some a) :
    eligibleStep conf stat s1 dev =
      winnerState conf stat s1 dev (displacedPass s1.pass a s1.assigneeTime) := by
  simp [eligibleStep, h, ha, winnerPass, displacedPass, winnerState]

/-- The eligible branch never adds anyone to the busy set. -/
lemma eligibleStep_busy_not_mem (conf : Conf) (stat : BugStat)
    (s1 : BugState) (dev : Edge) (x : String)
    (hx : x ∉ s1.pass.developerBusy) :
    x ∉ (eligibleStep conf stat s1 dev).pass.developerBusy := by
  by_cases h : rankOf conf.coeffs stat
      (candidateCombined s1.pass.developers dev) > s1.assigneeRank
  · cases ha : s1.assignee with
    | none => rw [eligibleStep_of_gt_none conf stat s1 dev h ha]; exact hx
    | some a =>
        rw [eligibleStep_of_gt_some conf stat s1 dev a h ha]
        intro hmem
        exact hx (List.mem_of_mem_erase hmem)
  · rw [eligibleStep_of_not_gt conf stat s1 dev h]
    exact hx

/-- A non-skipped candidate reduces `processCandidate` to the match on the
business test (the accumulated load read from the pre-step state). -/
lemma processCandidate_not_skipped (conf : Conf) (devStats : String → DevTimes)
    (stat : BugStat) (s : BugState) (dev : Edge)
    (h1 : dev.developer ∉ s.pass.developerBusy)
    (h2 : dev.developer ∉ s.analysedDevelopers) :
    processCandidate conf devStats stat s dev =
      match developerBusyCheck conf (devStats dev.developer).timeAvailable
          (devStats dev.developer).timeUnavailable
          (timeOf s.pass.developerTimeAssignments dev.developer) with
      | none => none
      | some true => some (busyStep (addAnalysed s dev.developer) dev.developer)
      | some false =>
          some (eligibleStep conf stat (addAnalysed s dev.developer) dev) := by
  unfold processCandidate
  rw [if_neg h1, if_neg h2]
  rfl

lemma developerBusyCheck_none_iff (conf : Conf) (tA tU load : ℚ) :
    developerBusyCheck conf tA tU load = none ↔ conf.bugFixedDays = 0 := by
  unfold developerBusyCheck
  by_cases h : conf.bugFixedDays = 0 <;> simp [h]

lemma developerBusyCheck_false_iff (conf : Conf) (tA tU load : ℚ)
    (hfd : conf.bugFixedDays ≠ 0) :
    (developerBusyCheck conf tA tU load = some false ↔
      conf.timeIncrement * tA * (conf.bugOpenedDays / conf.bugFixedDays) -
        (tU + load) > 0) := by
  unfold developerBusyCheck
  rw [if_neg hfd]
  have hXeq : conf.timeIncrement * (tA * conf.bugOpenedDays / conf.bugFixedDays) -
      (tU + load) =
      conf.timeIncrement * tA * (conf.bugOpenedDays / conf.bugFixedDays) -
      (tU + load) := by ring
  constructor
  · intro h
    injection h with h
    have hnot := of_decide_eq_false h
    rw [hXeq] at hnot
    exact lt_of_not_le hnot
  · intro h
    have : ¬ (conf.timeIncrement * (tA * conf.bugOpenedDays / conf.bugFixedDays) -
        (tU + load) ≤ 0) := by
      rw [hXeq]
      exact not_le_of_lt h
    simp [this]

lemma developerBusyCheck_true_iff (conf : Conf) (tA tU load : ℚ)
    (hfd : conf.bugFixedDays ≠ 0) :
    (developerBusyCheck conf tA tU load = some true ↔
      conf.timeIncrement * tA * (conf.bugOpenedDays / conf.bugFixedDays) -
        (tU + load) ≤ 0) := by
  unfold developerBusyCheck
  rw [if_neg hfd]
  have hXeq : conf.timeIncrement * (tA * conf.bugOpenedDays / conf.bugFixedDays) -
      (tU + load) =
      conf.timeIncrement * tA * (conf.bugOpenedDays / conf.bugFixedDays) -
      (tU + load) := by ring
  constructor
  · intro h
    injection h with h
    have := of_decide_eq_true h
    rwa [hXeq] at this
  · intro h
    have : conf.timeIncrement * (tA * conf.bugOpenedDays / conf.bugFixedDays) -
        (tU + load) ≤ 0 := by rwa [hXeq]
    simp [this]

/-- C2: for a candidate not already busy and not already analysed for this
bug, `getResult` treats the developer as eligible (leaves them out of the
busy set) if and only if
`timeIncrement * timeAvailable * (bugOpenedDays / bugFixedDays) -
(timeUnavailable + hypotheticalLoad) > 0`, where the hypothetical load is
the `developerTimeAssignments` entry accumulated earlier in the pass (`0`
when absent); a zero `bugFixedDays` aborts the run (`none`) instead of
being silently handled. -/
theorem capacityGate_eligibility (conf : Conf) (devStats : String → DevTimes)
    (stat : BugStat) (s : BugState) (dev : Edge)
    (h1 : dev.developer ∉ s.pass.developerBusy)
    (h2 : dev.developer ∉ s.analysedDevelopers) :
    (conf.bugFixedDays = 0 →
      processCandidate conf devStats stat s dev = none) ∧
    (∀ s', processCandidate conf devStats stat s dev = some s' →
      (dev.developer ∉ s'.pass.developerBusy ↔
        conf.timeIncrement * (devStats dev.developer).timeAvailable *
            (conf.bugOpenedDays / conf.bugFixedDays) -
          ((devStats dev.developer).timeUnavailable +
            timeOf s.pass.developerTimeAssignments dev.developer) > 0)) := by
  have hstep := processCandidate_not_skipped conf devStats stat s dev h1 h2
  constructor
  · intro hfd
    rw [hstep,
      (developerBusyCheck_none_iff conf (devStats dev.developer).timeAvailable
        (devStats dev.developer).timeUnavailable
        (timeOf s.pass.developerTimeAssignments dev.developer)).mpr hfd]
  · intro s' hs'
    rw [hstep] at hs'
    cases hchk : developerBusyCheck conf (devStats dev.developer).timeAvailable
        (devStats dev.developer).timeUnavailable
        (timeOf s.pass.developerTimeAssignments dev.developer) with
    | none => rw [hchk] at hs'; cases hs'
    | some b =>
        rw [hchk] at hs'
        have hfd : conf.bugFixedDays ≠ 0 := by
          intro hfd0
          rw [(developerBusyCheck_none_iff conf _ _ _).mpr hfd0] at hchk
          cases hchk
        cases b with
        | true =>
            injection hs' with hs'
            subst hs'
            constructor
            · intro hnot
              exact absurd ((mem_insertBusy _ _ _).mpr (Or.inr rfl)) (by
                simpa [busyStep, addAnalysed_pass] using hnot)
            · intro hgt
              have hle := (developerBusyCheck_true_iff conf _ _ _ hfd).mp hchk
              linarith
        | false =>
            injection hs' with hs'
            subst hs'
            constructor
            · intro _
              exact (developerBusyCheck_false_iff conf _ _ _ hfd).mp hchk
            · intro _
              exact eligibleStep_busy_not_mem conf stat
                (addAnalysed s dev.developer) dev dev.developer
                (by simpa [addAnalysed_pass] using h1)

/-- Concrete two-candidate scenario used to instantiate the theorems: bug
`10` of project `7` has candidates `"a"` then `"b"` on component `"c"`,
priority `"p"`; only open-bug history exists; with weight 1 on availability
alone, `"b"` (1 open assignment) outranks `"a"` (2 open assignments). -/
def exCoeffs : Coefficients := ⟨1, 0, 0, 0, 0⟩

/-- Scenario configuration: `timeIncrement = bugOpenedDays = bugFixedDays = 1`. -/
def exConf : Conf := ⟨1, 1, 1, exCoeffs⟩

/-- Scenario configuration with the fatal `bugFixedDays = 0`. -/
def exConfZero : Conf := ⟨1, 1, 0, exCoeffs⟩

/-- Scenario per-bug baseline: every average is `1`. -/
def exStat : BugStat := ⟨1, 1, 1, 1, 1, 1⟩

/-- Scenario open-bug snapshot of developer `"a"`. -/
def exSnapA : DevSnapshot := ⟨0, 2, 0, 0, 0, 1, 1⟩

/-- Scenario open-bug snapshot of developer `"b"`. -/
def exSnapB : DevSnapshot := ⟨0, 1, 0, 0, 0, 1, 1⟩

/-- Scenario developers dict (open-bug snapshots only). -/
def exDevs : Devs := [("acp1", exSnapA), ("bcp1", exSnapB)]

/-- Scenario per-developer history: plenty of available time. -/
def exDevStats : String → DevTimes := fun _ => ⟨100, 0⟩

/-- Scenario candidate edge of developer `"a"`. -/
def exEdgeA : Edge := ⟨"c", "p", "a", 1⟩

/-- Scenario candidate edge of developer `"b"`. -/
def exEdgeB : Edge := ⟨"c", "p", "b", 1⟩

/-- Scenario initial pass state. -/
def exPass : PassState := initPassState exDevs

/-- Scenario bug list. -/
def exBugs : List (ℕ × BugStat × List Edge) := [(10, exStat, [exEdgeA, exEdgeB])]

theorem capacityGate_eligibility_witness :
    processCandidate exConfZero exDevStats exStat (initBugState exPass)
      exEdgeB = none ∧
    ("b" ∉ (eligibleStep exConf exStat (addAnalysed (initBugState exPass) "b")
        exEdgeB).pass.developerBusy ↔
      exConf.timeIncrement * (exDevStats "b").timeAvailable *
          (exConf.bugOpenedDays / exConf.bugFixedDays) -
        ((exDevStats "b").timeUnavailable +
          timeOf (initBugState exPass).pass.developerTimeAssignments "b") >
        0) := by
  constructor
  · exact (capacityGate_eligibility exConfZero exDevStats exStat
      (initBugState exPass) exEdgeB (by decide) (by decide)).1 rfl
  · exact (capacityGate_eligibility exConf exDevStats exStat
      (initBugState exPass) exEdgeB (by decide) (by decide)).2 _
      (by with_unfolding_all rfl)

/-- C1: for a candidate that passes the Capacity Gate in `getResult`, the
combined snapshot is exactly the spec's combination (sum the five count
fields, prefer the fixed-bug `devAvgTime`/`bugAvgETA` when fixed-bug
history exists), the code's rank is exactly the spec section 4.3 weighted
sum of the five `safeDiv` sub-scores, and the candidate becomes the
provisional assignee with exactly that rank precisely when it beats the
best rank so far. -/
theorem getResult_rank_formula (conf : Conf) (devStats : String → DevTimes)
    (stat : BugStat) (s : BugState) (dev : Edge)
    (h1 : dev.developer ∉ s.pass.developerBusy)
    (h2 : dev.developer ∉ s.analysedDevelopers)
    (hgate : developerBusyCheck conf (devStats dev.developer).timeAvailable
        (devStats dev.developer).timeUnavailable
        (timeOf s.pass.developerTimeAssignments dev.developer) = some false) :
    (∀ (f o : DevSnapshot) (e : ℚ),
      combinedDevDetails f o e = spec_combinedSnapshot f o (decide (e ≠ 0))) ∧
    (∀ (k : Coefficients) (st : BugStat) (c : DevSnapshot),
      rankOf k st c = spec_rank k st c) ∧
    (∀ s', processCandidate conf devStats stat s dev = some s' →
      (spec_rank conf.coeffs stat (candidateCombined s.pass.developers dev) >
          s.assigneeRank →
        s'.assignee = some dev.developer ∧
        s'.assigneeRank =
          spec_rank conf.coeffs stat
            (candidateCombined s.pass.developers dev)) ∧
      (¬ spec_rank conf.coeffs stat (candidateCombined s.pass.developers dev) >
          s.assigneeRank →
        s'.assignee = s.assignee ∧ s'.assigneeRank = s.assigneeRank)) := by
  have hcomb : ∀ (f o : DevSnapshot) (e : ℚ),
      combinedDevDetails f o e = spec_combinedSnapshot f o (decide (e ≠ 0)) := by
    intro f o e
    by_cases he : e = 0
    · simp [combinedDevDetails, spec_combinedSnapshot, he]
    · simp [combinedDevDetails, spec_combinedSnapshot, he]
  have hrank : ∀ (k : Coefficients) (st : BugStat) (c : DevSnapshot),
      rankOf k st c = spec_rank k st c := fun _ _ _ => rfl
  refine ⟨hcomb, hrank, ?_⟩
  intro s' hs'
  rw [processCandidate_not_skipped conf devStats stat s dev h1 h2, hgate]
    at hs'
  injection hs' with hs'
  subst hs'
  have hsame : rankOf conf.coeffs stat
      (candidateCombined (addAnalysed s dev.developer).pass.developers dev) =
      spec_rank conf.coeffs stat (candidateCombined s.pass.developers dev) :=
    hrank conf.coeffs stat (candidateCombined s.pass.developers dev)
  constructor
  · intro hgt
    have hgt' : rankOf conf.coeffs stat
        (candidateCombined (addAnalysed s dev.developer).pass.developers dev) >
        (addAnalysed s dev.developer).assigneeRank := by
      rw [hsame]
      exact hgt
    cases ha : (addAnalysed s dev.developer).assignee with
    | none =>
        rw [eligibleStep_of_gt_none conf stat (addAnalysed s dev.developer)
          dev hgt' ha]
        exact ⟨rfl, hsame⟩
    | some a =>
        rw [eligibleStep_of_gt_some conf stat (addAnalysed s dev.developer)
          dev a hgt' ha]
        exact ⟨rfl, hsame⟩
  · intro hngt
    have hngt' : ¬ rankOf conf.coeffs stat
        (candidateCombined (addAnalysed s dev.developer).pass.developers dev) >
        (addAnalysed s dev.developer).assigneeRank := by
      rw [hsame]
      exact hngt
    rw [eligibleStep_of_not_gt conf stat (addAnalysed s dev.developer) dev hngt']
    exact ⟨rfl, rfl⟩

theorem getResult_rank_formula_witness :
    (combinedDevDetails DevSnapshot.zero exSnapB 0 =
      spec_combinedSnapshot DevSnapshot.zero exSnapB (decide ((0 : ℚ) ≠ 0))) ∧
    (rankOf exCoeffs exStat exSnapB = spec_rank exCoeffs exStat exSnapB) ∧
    ((eligibleStep exConf exStat (addAnalysed (initBugState exPass) "b")
        exEdgeB).assignee = some "b" ∧
      (eligibleStep exConf exStat (addAnalysed (initBugState exPass) "b")
          exEdgeB).assigneeRank =
        spec_rank exConf.coeffs exStat
          (candidateCombined exPass.developers exEdgeB)) := by
  have h := getResult_rank_formula exConf exDevStats exStat
    (initBugState exPass) exEdgeB (by decide) (by decide)
    (by with_unfolding_all rfl)
  refine ⟨h.1 DevSnapshot.zero exSnapB 0, h.2.1 exCoeffs exStat exSnapB, ?_⟩
  exact (h.2.2 _ (by with_unfolding_all rfl)).1
    (of_decide_eq_true (by with_unfolding_all rfl))

/-- Exhaustive case analysis of one candidate step: either the candidate
was skipped (already busy or already analysed) and the state is untouched,
or it was recorded as analysed and the step took the busy or the eligible
branch. -/
lemma processCandidate_cases (conf : Conf) (devStats : String → DevTimes)
    (stat : BugStat) (s : BugState) (dev : Edge) (s' : BugState)
    (h : processCandidate conf devStats stat s dev = some s') :
    ((dev.developer ∈ s.pass.developerBusy ∨
        dev.developer ∈ s.analysedDevelopers) ∧ s' = s) ∨
    (dev.developer ∉ s.pass.developerBusy ∧
      dev.developer ∉ s.analysedDevelopers ∧
      (s' = busyStep (addAnalysed s dev.developer) dev.developer ∨
        s' = eligibleStep conf stat (addAnalysed s dev.developer) dev)) := by
  by_cases hb : dev.developer ∈ s.pass.developerBusy
  · unfold processCandidate at h
    rw [if_pos hb] at h
    injection h with h
    exact Or.inl ⟨Or.inl hb, h.symm⟩
  · by_cases han : dev.developer ∈ s.analysedDevelopers
    · unfold processCandidate at h
      rw [if_neg hb, if_pos han] at h
      injection h with h
      exact Or.inl ⟨Or.inr han, h.symm⟩
    · refine Or.inr ⟨hb, han, ?_⟩
      rw [processCandidate_not_skipped conf devStats stat s dev hb han] at h
      cases hchk : developerBusyCheck conf (devStats dev.developer).timeAvailable
          (devStats dev.developer).timeUnavailable
          (timeOf s.pass.developerTimeAssignments dev.developer) with
      | none => rw [hchk] at h; cases h
      | some b =>
          rw [hchk] at h
          cases b with
          | true =>
              injection h with h
              exact Or.inl h.symm
          | false =>
              injection h with h
              exact Or.inr h.symm

/-- All cases a taken (non-skipped) eligible branch can end in. -/
lemma eligibleStep_cases (conf : Conf) (stat : BugStat) (s1 : BugState)
    (dev : Edge) :
    eligibleStep conf stat s1 dev = s1 ∨
    (rankOf conf.coeffs stat (candidateCombined s1.pass.developers dev) >
        s1.assigneeRank ∧
      ((s1.assignee = none ∧
          eligibleStep conf stat s1 dev = winnerState conf stat s1 dev s1.pass) ∨
        (∃ a, s1.assignee = some a ∧
          eligibleStep conf stat s1 dev =
            winnerState conf stat s1 dev
              (displacedPass s1.pass a s1.assigneeTime)))) := by
  by_cases h : rankOf conf.coeffs stat
      (candidateCombined s1.pass.developers dev) > s1.assigneeRank
  · refine Or.inr ⟨h, ?_⟩
    cases ha : s1.assignee with
    | none => exact Or.inl ⟨rfl, eligibleStep_of_gt_none conf stat s1 dev h ha⟩
    | some a =>
        exact Or.inr ⟨a, rfl, eligibleStep_of_gt_some conf stat s1 dev a h ha⟩
  · exact Or.inl (eligibleStep_of_not_gt conf stat s1 dev h)

/-- No candidate step ever touches the accumulated `issue_assignment`. -/
lemma processCandidate_issueAssignment (conf : Conf)
    (devStats : String → DevTimes) (stat : BugStat) (s : BugState) (dev : Edge)
    (s' : BugState) (h : processCandidate conf devStats stat s dev = some s') :
    s'.pass.issueAssignment = s.pass.issueAssignment := by
  rcases processCandidate_cases conf devStats stat s dev s' h with
    ⟨_, rfl⟩ | ⟨_, _, hcase | hcase⟩
  · rfl
  · rw [hcase]; rfl
  · rw [hcase]
    rcases eligibleStep_cases conf stat (addAnalysed s dev.developer) dev with
      heq | ⟨_, ⟨_, heq⟩ | ⟨a, _, heq⟩⟩ <;> rw [heq] <;> rfl

/-- The candidate loop never touches the accumulated `issue_assignment`. -/
lemma runCandidates_issueAssignment (conf : Conf)
    (devStats : String → DevTimes) (stat : BugStat) :
    ∀ (edges : List Edge) (s s' : BugState),
      runCandidates conf devStats stat s edges = some s' →
      s'.pass.issueAssignment = s.pass.issueAssignment
  | [], s, s', h => by
      injection h with h
      rw [h]
  | e :: es, s, s', h => by
      unfold runCandidates at h
      cases hstep : processCandidate conf devStats stat s e with
      | none => rw [hstep] at h; cases h
      | some s1 =>
          rw [hstep] at h
          rw [runCandidates_issueAssignment conf devStats stat es s1 s' h,
            processCandidate_issueAssignment conf devStats stat s e s1 hstep]

/-- One candidate step keeps a busy developer busy and never makes it the
provisional assignee (given it was not the assignee already). -/
lemma processCandidate_busy_invariant (conf : Conf)
    (devStats : String → DevTimes) (stat : BugStat) (s : BugState)
    (dev : Edge) (s' : BugState) (d : String)
    (h : processCandidate conf devStats stat s dev = some s')
    (hd : d ∈ s.pass.developerBusy)
    (hass : ∀ a, s.assignee = some a → a ≠ d) :
    d ∈ s'.pass.developerBusy ∧ (∀ a, s'.assignee = some a → a ≠ d) := by
  rcases processCandidate_cases conf devStats stat s dev s' h with
    ⟨_, rfl⟩ | ⟨hb, han, hcase | hcase⟩
  · exact ⟨hd, hass⟩
  · subst hcase
    exact ⟨(mem_insertBusy _ _ _).mpr (Or.inl hd), fun a ha => hass a ha⟩
  · have hne : dev.developer ≠ d := fun hEq => hb (hEq ▸ hd)
    subst hcase
    rcases eligibleStep_cases conf stat (addAnalysed s dev.developer) dev with
      heq | ⟨_, ⟨ha0, heq⟩ | ⟨a, ha0, heq⟩⟩
    · rw [heq]
      exact ⟨hd, fun a ha => hass a ha⟩
    · rw [heq]
      refine ⟨hd, ?_⟩
      intro a ha
      injection ha with ha
      exact ha ▸ hne
    · rw [heq]
      have haD : a ≠ d := hass a ha0
      refine ⟨?_, ?_⟩
      · exact (List.mem_erase_of_ne (Ne.symm haD)).mpr hd
      · intro x hx
        injection hx with hx
        exact hx ▸ hne

/-- The candidate loop keeps a busy developer busy and assignee-free. -/
lemma runCandidates_busy (conf : Conf) (devStats : String → DevTimes)
    (stat : BugStat) :
    ∀ (edges : List Edge) (s s' : BugState) (d : String),
      runCandidates conf devStats stat s edges = some s' →
      d ∈ s.pass.developerBusy → (∀ a, s.assignee = some a → a ≠ d) →
      d ∈ s'.pass.developerBusy ∧ (∀ a, s'.assignee = some a → a ≠ d)
  | [], s, s', d, h, hd, hass => by
      injection h with h
      subst h
      exact ⟨hd, hass⟩
  | e :: es, s, s', d, h, hd, hass => by
      unfold runCandidates at h
      cases hstep : processCandidate conf devStats stat s e with
      | none => rw [hstep] at h; cases h
      | some s1 =>
          rw [hstep] at h
          obtain ⟨hd1, hass1⟩ := processCandidate_busy_invariant conf devStats
            stat s e s1 d hstep hd hass
          exact runCandidates_busy conf devStats stat es s1 s' d h hd1 hass1

/-- One whole bug keeps a busy developer busy, and any assignment row it
appends names a different developer. -/
lemma processBug_busy (conf : Conf) (devStats : String → DevTimes)
    (pid : ℕ) (pass : PassState) (bug : ℕ) (stat : BugStat)
    (edges : List Edge) (pass' : PassState) (d : String)
    (h : processBug conf devStats pid pass bug stat edges = some pass')
    (hd : d ∈ pass.developerBusy) :
    d ∈ pass'.developerBusy ∧
      ∀ e ∈ pass'.issueAssignment,
        e ∈ pass.issueAssignment ∨ e.2.2 ≠ d := by
  unfold processBug at h
  cases hrun : runCandidates conf devStats stat (initBugState pass) edges with
  | none => rw [hrun] at h; cases h
  | some s =>
      rw [hrun] at h
      obtain ⟨hd', hass'⟩ := runCandidates_busy conf devStats stat edges
        (initBugState pass) s d hrun hd (by intro a ha; cases ha)
      have hIA := runCandidates_issueAssignment conf devStats stat edges
        (initBugState pass) s hrun
      have h2 : (match s.assignee with
          | some a =>
              some { s.pass with
                issueAssignment := s.pass.issueAssignment ++ [(bug, pid, a)] }
          | none => some s.pass) = some pass' := h
      cases hass : s.assignee with
      | none =>
          rw [hass] at h2
          injection h2 with h2
          subst h2
          exact ⟨hd', fun e he => Or.inl (hIA ▸ he)⟩
      | some a =>
          rw [hass] at h2
          injection h2 with h2
          subst h2
          refine ⟨hd', ?_⟩
          intro e he
          rcases List.mem_append.mp he with he | he
          · exact Or.inl (hIA ▸ he)
          · right
            rw [List.mem_singleton.mp he]
            exact hass' a hass

/-- C3: once a developer has been marked busy during a pass they are never
evaluated again — a busy candidate is skipped with the state untouched —
and every later bug keeps them busy and never emits an assignment row
naming them. -/
theorem busy_monotone (conf : Conf) (devStats : String → DevTimes)
    (pid : ℕ) :
    (∀ stat s dev, dev.developer ∈ s.pass.developerBusy →
      processCandidate conf devStats stat s dev = some s) ∧
    (∀ bugs pass pass' d, d ∈ pass.developerBusy →
      runBugs conf devStats pid pass bugs = some pass' →
      d ∈ pass'.developerBusy ∧
      ∀ e ∈ pass'.issueAssignment,
        e ∈ pass.issueAssignment ∨ e.2.2 ≠ d) := by
  constructor
  · intro stat s dev h
    unfold processCandidate
    rw [if_pos h]
  · intro bugs
    induction bugs with
    | nil =>
        intro pass pass' d hd h
        injection h with h
        subst h
        exact ⟨hd, fun e he => Or.inl he⟩
    | cons b rest ih =>
        intro pass pass' d hd h
        obtain ⟨bug, stat, edges⟩ := b
        unfold runBugs at h
        cases hb : processBug conf devStats pid pass bug stat edges with
        | none => rw [hb] at h; cases h
        | some pass1 =>
            rw [hb] at h
            obtain ⟨hd1, hnew1⟩ := processBug_busy conf devStats pid pass bug
              stat edges pass1 d hb hd
            obtain ⟨hd2, hnew2⟩ := ih pass1 pass' d hd1 h
            refine ⟨hd2, ?_⟩
            intro e he
            rcases hnew2 e he with he1 | hne
            · exact hnew1 e he1
            · exact Or.inr hne

/-- Scenario pass state where developer `"a"` is already busy. -/
def exPassBusy : PassState :=
  { developers := exDevs
    developerTimeAssignments := []
    developerBusy := ["a"]
    issueAssignment := [] }

/-- The pass state `runBugs` produces from `exPassBusy` on the scenario bug
list: `"a"` is skipped as busy and `"b"` wins the bug. -/
def exPassBusyFinal : PassState :=
  { developers := [("acp1", exSnapA), ("bcp1", ⟨0, 2, 0, 0, 0, 1, 1⟩)]
    developerTimeAssignments := [("b", 1)]
    developerBusy := ["a"]
    issueAssignment := [(10, 7, "b")] }

theorem busy_monotone_witness :
    processCandidate exConf exDevStats exStat (initBugState exPassBusy)
      exEdgeA = some (initBugState exPassBusy) ∧
    "a" ∈ exPassBusyFinal.developerBusy ∧
    ((10, 7, "b") ∈ exPassBusy.issueAssignment ∨
      ((10, 7, "b") : ℕ × ℕ × String).2.2 ≠ "a") := by
  have h := (busy_monotone exConf exDevStats 7).2 exBugs exPassBusy
    exPassBusyFinal "a" (by decide) (by with_unfolding_all rfl)
  exact ⟨(busy_monotone exConf exDevStats 7).1 exStat (initBugState exPassBusy)
      exEdgeA (by decide),
    h.1, h.2 (10, 7, "b") (by decide)⟩

/-- The per-bug time-map invariant: relative to the pre-bug map `base`, the
current provisional assignee (who is always among the analysed developers)
carries exactly one extra debit of `assigneeTime`, and everyone else's
entry is untouched.  One candidate step preserves it. -/
lemma processCandidate_time_invariant (conf : Conf)
    (devStats : String → DevTimes) (stat : BugStat) (base : TimeMap)
    (s : BugState) (dev : Edge) (s' : BugState)
    (h : processCandidate conf devStats stat s dev = some s')
    (hass : ∀ a, s.assignee = some a → a ∈ s.analysedDevelopers ∧
      timeOf s.pass.developerTimeAssignments a =
        timeOf base a + s.assigneeTime)
    (hother : ∀ x, s.assignee ≠ some x →
      timeOf s.pass.developerTimeAssignments x = timeOf base x) :
    (∀ a, s'.assignee = some a → a ∈ s'.analysedDevelopers ∧
      timeOf s'.pass.developerTimeAssignments a =
        timeOf base a + s'.assigneeTime) ∧
    (∀ x, s'.assignee ≠ some x →
      timeOf s'.pass.developerTimeAssignments x = timeOf base x) := by
  rcases processCandidate_cases conf devStats stat s dev s' h with
    ⟨_, rfl⟩ | ⟨hb, han, hcase | hcase⟩
  · exact ⟨hass, hother⟩
  · subst hcase
    refine ⟨?_, ?_⟩
    · intro a ha
      obtain ⟨hmem, htime⟩ := hass a ha
      exact ⟨List.mem_append_left _ hmem, htime⟩
    · intro x hx
      exact hother x hx
  · subst hcase
    rcases eligibleStep_cases conf stat (addAnalysed s dev.developer) dev with
      heq | ⟨_, ⟨ha0, heq⟩ | ⟨a, ha0, heq⟩⟩
    · rw [heq]
      refine ⟨?_, ?_⟩
      · intro a ha
        obtain ⟨hmem, htime⟩ := hass a ha
        exact ⟨List.mem_append_left _ hmem, htime⟩
      · intro x hx
        exact hother x hx
    · -- no previous assignee: the new assignee gets the single fresh debit
      rw [heq]
      have ha0' : s.assignee = none := ha0
      refine ⟨?_, ?_⟩
      · intro a ha
        have ha' : dev.developer = a := by simpa [winnerState] using ha
        subst ha'
        refine ⟨List.mem_append_right _ (List.mem_singleton_self _), ?_⟩
        show timeOf (setQ s.pass.developerTimeAssignments dev.developer
          (timeOf s.pass.developerTimeAssignments dev.developer +
            (candidateCombined s.pass.developers dev).devAvgTime))
          dev.developer =
          timeOf base dev.developer +
            (candidateCombined s.pass.developers dev).devAvgTime
        rw [timeOf_setQ_self,
          hother dev.developer (by rw [ha0']; exact fun hx => by cases hx)]
      · intro x hx
        have hxw : dev.developer ≠ x := by
          intro hEq
          exact hx (by simp [winnerState, hEq])
        show timeOf (setQ s.pass.developerTimeAssignments dev.developer
          (timeOf s.pass.developerTimeAssignments dev.developer +
            (candidateCombined s.pass.developers dev).devAvgTime)) x =
          timeOf base x
        rw [timeOf_setQ_ne _ _ _ _ hxw,
          hother x (by rw [ha0']; exact fun hc => by cases hc)]
    · -- displacement: the old assignee's debit is reverted, the new
      -- assignee debited once
      rw [heq]
      have ha0' : s.assignee = some a := ha0
      obtain ⟨haMem, haTime⟩ := hass a ha0'
      have haw : a ≠ dev.developer := fun hEq => han (hEq ▸ haMem)
      refine ⟨?_, ?_⟩
      · intro w hw
        have hw' : dev.developer = w := by simpa [winnerState] using hw
        subst hw'
        refine ⟨List.mem_append_right _ (List.mem_singleton_self _), ?_⟩
        show timeOf (setQ (setQ s.pass.developerTimeAssignments a
            (timeOf s.pass.developerTimeAssignments a - s.assigneeTime))
          dev.developer
          (timeOf s.pass.developerTimeAssignments dev.developer +
            (candidateCombined s.pass.developers dev).devAvgTime))
          dev.developer =
          timeOf base dev.developer +
            (candidateCombined s.pass.developers dev).devAvgTime
        rw [timeOf_setQ_self,
          hother dev.developer (by
            rw [ha0']
            exact fun hc => haw (by injection hc))]
      · intro x hx
        have hxw : dev.developer ≠ x := by
          intro hEq
          exact hx (by simp [winnerState, hEq])
        show timeOf (setQ (setQ s.pass.developerTimeAssignments a
            (timeOf s.pass.developerTimeAssignments a - s.assigneeTime))
          dev.developer
          (timeOf s.pass.developerTimeAssignments dev.developer +
            (candidateCombined s.pass.developers dev).devAvgTime)) x =
          timeOf base x
        rw [timeOf_setQ_ne _ _ _ _ hxw]
        by_cases hxa : x = a
        · subst hxa
          rw [timeOf_setQ_self, haTime]
          ring
        · rw [timeOf_setQ_ne _ _ _ _ (fun hEq => hxa hEq.symm),
            hother x (by
              rw [ha0']
              exact fun hc => hxa (by injection hc with hc; exact hc.symm))]

/-- The candidate loop preserves the time-map invariant. -/
lemma runCandidates_time (conf : Conf) (devStats : String → DevTimes)
    (stat : BugStat) :
    ∀ (edges : List Edge) (s s' : BugState) (base : TimeMap),
      runCandidates conf devStats stat s edges = some s' →
      (∀ a, s.assignee = some a → a ∈ s.analysedDevelopers ∧
        timeOf s.pass.developerTimeAssignments a =
          timeOf base a + s.assigneeTime) →
      (∀ x, s.assignee ≠ some x →
        timeOf s.pass.developerTimeAssignments x = timeOf base x) →
      (∀ a, s'.assignee = some a → a ∈ s'.analysedDevelopers ∧
        timeOf s'.pass.developerTimeAssignments a =
          timeOf base a + s'.assigneeTime) ∧
      (∀ x, s'.assignee ≠ some x →
        timeOf s'.pass.developerTimeAssignments x = timeOf base x)
  | [], s, s', base, h, hass, hother => by
      injection h with h
      subst h
      exact ⟨hass, hother⟩
  | e :: es, s, s', base, h, hass, hother => by
      unfold runCandidates at h
      cases hstep : processCandidate conf devStats stat s e with
      | none => rw [hstep] at h; cases h
      | some s1 =>
          rw [hstep] at h
          obtain ⟨hass1, hother1⟩ := processCandidate_time_invariant conf
            devStats stat base s e s1 hstep hass hother
          exact runCandidates_time conf devStats stat es s1 s' base h
            hass1 hother1

lemma nodup_append_singleton {l : List String} {x : String}
    (hl : l.Nodup) (hx : x ∉ l) : (l ++ [x]).Nodup := by
  simp [List.nodup_append, hl, hx]

/-- A candidate step appends to `analysedDevelopers` only a developer that
is not yet in it, so the list stays duplicate-free. -/
lemma processCandidate_nodup (conf : Conf) (devStats : String → DevTimes)
    (stat : BugStat) (s : BugState) (dev : Edge) (s' : BugState)
    (h : processCandidate conf devStats stat s dev = some s')
    (hn : s.analysedDevelopers.Nodup) : s'.analysedDevelopers.Nodup := by
  rcases processCandidate_cases conf devStats stat s dev s' h with
    ⟨_, rfl⟩ | ⟨hb, han, hcase | hcase⟩
  · exact hn
  · subst hcase
    exact nodup_append_singleton hn han
  · subst hcase
    rcases eligibleStep_cases conf stat (addAnalysed s dev.developer) dev with
      heq | ⟨_, ⟨_, heq⟩ | ⟨a, _, heq⟩⟩ <;> rw [heq] <;>
      exact nodup_append_singleton hn han

lemma runCandidates_nodup (conf : Conf) (devStats : String → DevTimes)
    (stat : BugStat) :
    ∀ (edges : List Edge) (s s' : BugState),
      runCandidates conf devStats stat s edges = some s' →
      s.analysedDevelopers.Nodup → s'.analysedDevelopers.Nodup
  | [], s, s', h, hn => by
      injection h with h
      subst h
      exact hn
  | e :: es, s, s', h, hn => by
      unfold runCandidates at h
      cases hstep : processCandidate conf devStats stat s e with
      | none => rw [hstep] at h; cases h
      | some s1 =>
          rw [hstep] at h
          exact runCandidates_nodup conf devStats stat es s1 s' h
            (processCandidate_nodup conf devStats stat s e s1 hstep hn)

/-- C5: when a higher-ranked candidate displaces the previous best `a` for
the same bug, `developerTimeAssignments[a]` is debited back by exactly the
provisional `assigneeTime` (so it returns to its pre-provisional value);
and after a whole bug the time map differs from its pre-bug state only by
the winning candidate's single `assigneeTime` debit — not at all if the bug
ends unassigned. -/
theorem displacement_frame (conf : Conf) (devStats : String → DevTimes)
    (stat : BugStat) :
    (∀ (s : BugState) (dev : Edge) (a : String) (s' : BugState),
      s.assignee = some a → a ≠ dev.developer →
      processCandidate conf devStats stat s dev = some s' →
      s'.assignee = some dev.developer →
      timeOf s'.pass.developerTimeAssignments a =
        timeOf s.pass.developerTimeAssignments a - s.assigneeTime) ∧
    (∀ (pass : PassState) (edges : List Edge) (s' : BugState),
      runCandidates conf devStats stat (initBugState pass) edges = some s' →
      (s'.assignee = none →
        ∀ d, timeOf s'.pass.developerTimeAssignments d =
          timeOf pass.developerTimeAssignments d) ∧
      (∀ w, s'.assignee = some w →
        timeOf s'.pass.developerTimeAssignments w =
          timeOf pass.developerTimeAssignments w + s'.assigneeTime ∧
        ∀ d, d ≠ w → timeOf s'.pass.developerTimeAssignments d =
          timeOf pass.developerTimeAssignments d)) := by
  constructor
  · intro s dev a s' ha hadev h hw
    rcases processCandidate_cases conf devStats stat s dev s' h with
      ⟨_, rfl⟩ | ⟨hb, han, hcase | hcase⟩
    · rw [ha] at hw
      injection hw with hw
      exact absurd hw hadev
    · subst hcase
      have : s.assignee = some dev.developer := hw
      rw [ha] at this
      injection this with this
      exact absurd this hadev
    · subst hcase
      rcases eligibleStep_cases conf stat (addAnalysed s dev.developer) dev with
        heq | ⟨_, ⟨ha0, heq⟩ | ⟨a', ha0, heq⟩⟩
      · rw [heq] at hw
        have : s.assignee = some dev.developer := hw
        rw [ha] at this
        injection this with this
        exact absurd this hadev
      · have : s.assignee = none := ha0
        rw [ha] at this
        cases this
      · have ha' : s.assignee = some a' := ha0
        rw [ha] at ha'
        injection ha' with ha'
        subst ha'
        rw [heq]
        show timeOf (setQ (setQ s.pass.developerTimeAssignments a
            (timeOf s.pass.developerTimeAssignments a - s.assigneeTime))
          dev.developer
          (timeOf s.pass.developerTimeAssignments dev.developer +
            (candidateCombined s.pass.developers dev).devAvgTime)) a = _
        rw [timeOf_setQ_ne _ _ _ _ (fun hEq => hadev hEq.symm),
          timeOf_setQ_self]
  · intro pass edges s' h
    obtain ⟨hass, hother⟩ := runCandidates_time conf devStats stat edges
      (initBugState pass) s' pass.developerTimeAssignments h
      (by intro a ha; cases ha)
      (by intro x _; rfl)
    constructor
    · intro hnone d
      exact hother d (by rw [hnone]; exact fun hc => by cases hc)
    · intro w hw
      refine ⟨(hass w hw).2, ?_⟩
      intro d hdw
      exact hother d (by
        rw [hw]
        exact fun hc => hdw (by injection hc with hc; exact hc.symm))

/-- The final bug-loop state of the two-candidate scenario: `"b"` displaced
`"a"`; `"a"`'s time debit is reverted (back to 0) while `"a"`'s open-bug
`numAssigned` write is left at 3. -/
def exFinalB : BugState :=
  { assignee := some "b"
    assigneeTime := 1
    assigneeRank := 1
    assigneeNumAssigned := 2
    analysedDevelopers := ["a", "b"]
    pass :=
      { developers := [("acp1", ⟨0, 3, 0, 0, 0, 1, 1⟩),
          ("bcp1", ⟨0, 2, 0, 0, 0, 1, 1⟩)]
        developerTimeAssignments := [("a", 0), ("b", 1)]
        developerBusy := []
        issueAssignment := [] } }

theorem displacement_frame_witness :
    timeOf exFinalB.pass.developerTimeAssignments "b" =
      timeOf exPass.developerTimeAssignments "b" + exFinalB.assigneeTime ∧
    timeOf exFinalB.pass.developerTimeAssignments "a" =
      timeOf exPass.developerTimeAssignments "a" := by
  have h := ((displacement_frame exConf exDevStats exStat).2 exPass
    [exEdgeA, exEdgeB] exFinalB (by with_unfolding_all rfl)).2 "b" rfl
  exact ⟨h.1, h.2 "a" (by decide)⟩

/-- C6: in a single bug of a `getResult` pass each developer is evaluated
at most once (the analysed list stays duplicate-free even when the
developer appears via several component/priority edges), and consequently
each developer's time budget receives at most one net debit for the bug —
either their entry is unchanged or they are the final assignee with exactly
one `assigneeTime` debit. -/
theorem single_evaluation_per_bug (conf : Conf)
    (devStats : String → DevTimes) (stat : BugStat) (pass : PassState)
    (edges : List Edge) :
    ∀ s', runCandidates conf devStats stat (initBugState pass) edges =
        some s' →
      s'.analysedDevelopers.Nodup ∧
      ∀ d, timeOf s'.pass.developerTimeAssignments d =
          timeOf pass.developerTimeAssignments d ∨
        (s'.assignee = some d ∧
          timeOf s'.pass.developerTimeAssignments d =
            timeOf pass.developerTimeAssignments d + s'.assigneeTime) := by
  intro s' h
  obtain ⟨hass, hother⟩ := runCandidates_time conf devStats stat edges
    (initBugState pass) s' pass.developerTimeAssignments h
    (by intro a ha; cases ha)
    (by intro x _; rfl)
  refine ⟨?_, ?_⟩
  · exact runCandidates_nodup conf devStats stat edges (initBugState pass) s'
      h List.nodup_nil
  · intro d
    cases hw : s'.assignee with
    | none =>
        left
        exact hother d (by rw [hw]; exact fun hc => by cases hc)
    | some w =>
        by_cases hdw : d = w
        · subst hdw
          exact Or.inr ⟨rfl, (hass d hw).2⟩
        · left
          exact hother d (by
            rw [hw]
            exact fun hc => hdw (by injection hc with hc; exact hc.symm))

theorem single_evaluation_witness :
    exFinalB.analysedDevelopers.Nodup ∧
    (timeOf exFinalB.pass.developerTimeAssignments "a" =
        timeOf exPass.developerTimeAssignments "a" ∨
      (exFinalB.assignee = some "a" ∧
        timeOf exFinalB.pass.developerTimeAssignments "a" =
          timeOf exPass.developerTimeAssignments "a" + exFinalB.assigneeTime)) := by
  have h := single_evaluation_per_bug exConf exDevStats exStat exPass
    [exEdgeA, exEdgeB] exFinalB (by with_unfolding_all rfl)
  exact ⟨h.1, h.2 "a"⟩

/-- C4 (the code violates the spec's rollback invariant): in the
two-candidate scenario, `"b"` displaces `"a"` and wins bug `10`, yet
`"a"`'s open-bug snapshot keeps the provisional `numAssigned := 3` written
by `safeSetDeveloper` when `"a"` was provisionally accepted (its
pre-pass value was `2`): `getResult` reverts `developerTimeAssignments`
on displacement (lines 840-846) but never writes the displaced
candidate's `numAssigned` back, so the stale increment is what every
subsequent bug's scoring reads. -/
theorem numAssigned_rollback_missing :
    Option.map PassState.issueAssignment
        (runBugs exConf exDevStats 7 (initPassState exDevs) exBugs) =
      some [(10, 7, "b")] ∧
    Option.map (fun p => lookupDev p.developers "acp1")
        (runBugs exConf exDevStats 7 (initPassState exDevs) exBugs) =
      some (some ⟨0, 3, 0, 0, 0, 1, 1⟩) ∧
    lookupDev exDevs "acp1" = some ⟨0, 2, 0, 0, 0, 1, 1⟩ := by
  refine ⟨?_, ?_, rfl⟩ <;> with_unfolding_all rfl

/-- With a non-zero `bugFixedDays` a candidate step always returns a
state. -/
lemma processCandidate_total (conf : Conf) (devStats : String → DevTimes)
    (stat : BugStat) (hfd : conf.bugFixedDays ≠ 0) (s : BugState)
    (dev : Edge) :
    ∃ s', processCandidate conf devStats stat s dev = some s' := by
  by_cases hb : dev.developer ∈ s.pass.developerBusy
  · exact ⟨s, by unfold processCandidate; rw [if_pos hb]⟩
  · by_cases han : dev.developer ∈ s.analysedDevelopers
    · exact ⟨s, by unfold processCandidate; rw [if_neg hb, if_pos han]⟩
    · rw [processCandidate_not_skipped conf devStats stat s dev hb han]
      cases hchk : developerBusyCheck conf (devStats dev.developer).timeAvailable
          (devStats dev.developer).timeUnavailable
          (timeOf s.pass.developerTimeAssignments dev.developer) with
      | none =>
          exact absurd ((developerBusyCheck_none_iff conf _ _ _).mp hchk) hfd
      | some b =>
          cases b with
          | true => exact ⟨_, rfl⟩
          | false => exact ⟨_, rfl⟩

lemma runCandidates_total (conf : Conf) (devStats : String → DevTimes)
    (stat : BugStat) (hfd : conf.bugFixedDays ≠ 0) :
    ∀ (edges : List Edge) (s : BugState),
      ∃ s', runCandidates conf devStats stat s edges = some s'
  | [], s => ⟨s, rfl⟩
  | e :: es, s => by
      obtain ⟨s1, h1⟩ := processCandidate_total conf devStats stat hfd s e
      obtain ⟨s', h2⟩ := runCandidates_total conf devStats stat hfd es s1
      exact ⟨s', by unfold runCandidates; rw [h1]; exact h2⟩

lemma processBug_total (conf : Conf) (devStats : String → DevTimes)
    (pid : ℕ) (hfd : conf.bugFixedDays ≠ 0) (pass : PassState) (bug : ℕ)
    (stat : BugStat) (edges : List Edge) :
    ∃ pass', processBug conf devStats pid pass bug stat edges = some pass' := by
  obtain ⟨s, hs⟩ := runCandidates_total conf devStats stat hfd edges
    (initBugState pass)
  cases ha : s.assignee with
  | none =>
      refine ⟨s.pass, ?_⟩
      unfold processBug
      rw [hs]
      have h2 : (match s.assignee with
          | some a =>
              some { s.pass with
                issueAssignment := s.pass.issueAssignment ++ [(bug, pid, a)] }
          | none => some s.pass) = some s.pass := by rw [ha]
      exact h2
  | some a =>
      refine ⟨{ s.pass with
        issueAssignment := s.pass.issueAssignment ++ [(bug, pid, a)] }, ?_⟩
      unfold processBug
      rw [hs]
      have h2 : (match s.assignee with
          | some a =>
              some { s.pass with
                issueAssignment := s.pass.issueAssignment ++ [(bug, pid, a)] }
          | none => some s.pass) =
          some { s.pass with
            issueAssignment := s.pass.issueAssignment ++ [(bug, pid, a)] } := by
        rw [ha]
      exact h2

lemma runBugs_total (conf : Conf) (devStats : String → DevTimes)
    (pid : ℕ) (hfd : conf.bugFixedDays ≠ 0) :
    ∀ (bugs : List (ℕ × BugStat × List Edge)) (pass : PassState),
      ∃ pass', runBugs conf devStats pid pass bugs = some pass'
  | [], pass => ⟨pass, rfl⟩
  | (bug, stat, edges) :: rest, pass => by
      obtain ⟨pass1, h1⟩ := processBug_total conf devStats pid hfd pass bug
        stat edges
      obtain ⟨pass', h2⟩ := runBugs_total conf devStats pid hfd rest pass1
      exact ⟨pass', by unfold runBugs; rw [h1]; exact h2⟩

/-- What the grid-search loop guarantees about its final best pair: the
running best never decreases, every score seen is bounded by the final
best, and the final pair is the initial one or carries the score of the
vector it names. -/
lemma gridSearch_spec (f : Coefficients → Option ℚ) :
    ∀ (l : List Coefficients) (b : ℚ) (c : Coefficients)
      (out : ℚ × Coefficients),
      gridSearch f l (b, c) = some out →
      b ≤ out.1 ∧ (∀ k ∈ l, ∀ q, f k = some q → q ≤ out.1) ∧
      (out = (b, c) ∨ (f out.2 = some out.1 ∧ b < out.1))
  | [], b, c, out, h => by
      injection h with h
      subst h
      refine ⟨le_refl b, ?_, Or.inl rfl⟩
      intro k hk
      cases hk
  | k :: l, b, c, out, h => by
      unfold gridSearch at h
      cases hk : f k with
      | none => rw [hk] at h; cases h
      | some q =>
          rw [hk] at h
          have h' : gridSearch f l (if q > b then (q, k) else (b, c)) =
              some out := h
          by_cases hq : q > b
          · rw [if_pos hq] at h'
            obtain ⟨hb, hbound, hthird⟩ := gridSearch_spec f l q k out h'
            refine ⟨le_of_lt (lt_of_lt_of_le hq hb), ?_, ?_⟩
            · intro k' hk' q' hq'
              rcases List.mem_cons.mp hk' with rfl | hk'
              · rw [hk] at hq'
                injection hq' with hq'
                exact hq' ▸ hb
              · exact hbound k' hk' q' hq'
            · rcases hthird with rfl | ⟨hf, hlt⟩
              · exact Or.inr ⟨hk, hq⟩
              · exact Or.inr ⟨hf, lt_trans hq hlt⟩
          · rw [if_neg hq] at h'
            obtain ⟨hb, hbound, hthird⟩ := gridSearch_spec f l b c out h'
            refine ⟨hb, ?_, hthird⟩
            intro k' hk' q' hq'
            rcases List.mem_cons.mp hk' with rfl | hk'
            · rw [hk] at hq'
              injection hq' with hq'
              subst hq'
              exact le_trans (le_of_not_lt hq) hb
            · exact hbound k' hk' q' hq'

/-- C8: with a valid configuration, every coefficient vector's
`calculateScore` run returns a value (never an error): exactly `0` when the
pass assigned fewer bugs than `bugStatistics` holds, and the Evaluator's
F-measure otherwise; and whenever some tried vector scores positively, the
grid search's retained best is a vector with a positive recorded score —
never one that scored `0` (in particular never an incomplete one). -/
theorem calculateScore_zero_fill (conf : Conf) (devStats : String → DevTimes)
    (pid : ℕ) (bugs : List (ℕ × BugStat × List Edge)) (developers : Devs)
    (reality : ℚ × ℚ × ℚ) (hfd : conf.bugFixedDays ≠ 0) :
    (∀ k : Coefficients,
      (getResult { conf with coeffs := k } devStats pid bugs
        developers).isSome ∧
      ∀ ia, getResult { conf with coeffs := k } devStats pid bugs
          developers = some ia →
        calculateScore conf devStats pid bugs developers reality k =
          some (if ia.length < bugs.length then 0
            else (getScore RUN_MODE_TEST ia bugs.length reality).F)) ∧
    (∀ (l : List Coefficients) (c0 : Coefficients) (out : ℚ × Coefficients),
      gridSearch (calculateScore conf devStats pid bugs developers reality) l
          (0, c0) = some out →
      (∃ k ∈ l, ∃ q, calculateScore conf devStats pid bugs developers reality
          k = some q ∧ 0 < q) →
      0 < out.1 ∧
      calculateScore conf devStats pid bugs developers reality out.2 =
        some out.1 ∧
      ∀ k, calculateScore conf devStats pid bugs developers reality k =
          some 0 → out.2 ≠ k) := by
  constructor
  · intro k
    constructor
    · obtain ⟨pass', hp⟩ := runBugs_total { conf with coeffs := k } devStats
        pid hfd bugs (initPassState developers)
      unfold getResult
      rw [hp]
      rfl
    · intro ia hia
      unfold calculateScore
      rw [hia]
      have h2 : (let r := getScore RUN_MODE_TEST ia bugs.length reality
          some (if r.nA < r.tA then 0 else r.F)) =
          some (if ia.length < bugs.length then 0
            else (getScore RUN_MODE_TEST ia bugs.length reality).F) := rfl
      exact h2
  · intro l c0 out hgs hpos
    obtain ⟨k, hk, q, hq, hqpos⟩ := hpos
    obtain ⟨_, hbound, hthird⟩ := gridSearch_spec _ l 0 c0 out hgs
    have hout : 0 < out.1 := lt_of_lt_of_le hqpos (hbound k hk q hq)
    rcases hthird with heq | ⟨hf, _⟩
    · rw [heq] at hout
      exact absurd hout (lt_irrefl 0)
    · refine ⟨hout, hf, ?_⟩
      intro k' hk0 hEq
      rw [hEq, hk0] at hf
      injection hf with hf
      rw [← hf] at hout
      exact absurd hout (lt_irrefl 0)

/-- Grid-search scenario: weight on competency alone. -/
def exK2 : Coefficients := ⟨0, 0, 1, 0, 0⟩

/-- Grid-search scenario: the default all-zero best coefficients. -/
def exC0 : Coefficients := ⟨0, 0, 0, 0, 0⟩

/-- Grid-search scenario history: `"a"` has a tight time budget, everyone
else a large one. -/
def exDevStats2 : String → DevTimes := fun d =>
  if d = "a" then ⟨1, 0⟩ else ⟨100, 0⟩

/-- Grid-search scenario bug list: bug `11` can only go to `"a"`, so a
vector that hands bug `10` to `"a"` exhausts `"a"` and leaves bug `11`
unassigned. -/
def exBugs2 : List (ℕ × BugStat × List Edge) :=
  [(10, exStat, [exEdgeA, exEdgeB]), (11, exStat, [exEdgeA])]

theorem calculateScore_zero_fill_witness :
    (getResult { exConf with coeffs := exK2 } exDevStats2 7 exBugs2
      exDevs).isSome = true ∧
    calculateScore exConf exDevStats2 7 exBugs2 exDevs (1, 0, 0) exK2 =
      some (if ([(10, 7, "a")] : List (ℕ × ℕ × String)).length <
          exBugs2.length then 0
        else (getScore RUN_MODE_TEST [(10, 7, "a")] exBugs2.length
          (1, 0, 0)).F) ∧
    0 < (1 : ℚ) ∧
    calculateScore exConf exDevStats2 7 exBugs2 exDevs (1, 0, 0)
      ((1 : ℚ), exCoeffs).2 = some ((1 : ℚ), exCoeffs).1 ∧
    (calculateScore exConf exDevStats2 7 exBugs2 exDevs (1, 0, 0) exK2 =
      some 0 → ((1 : ℚ), exCoeffs).2 ≠ exK2) := by
  have h := calculateScore_zero_fill exConf exDevStats2 7 exBugs2 exDevs
    (1, 0, 0) (by norm_num [exConf])
  have h2 := (h.2 [exK2, exCoeffs] exC0 ((1 : ℚ), exCoeffs)
    (by with_unfolding_all rfl)
    ⟨exCoeffs, by decide, 1, by with_unfolding_all rfl, by norm_num⟩)
  exact ⟨(h.1 exK2).1, (h.1 exK2).2 [(10, 7, "a")] (by with_unfolding_all rfl),
    h2.1, h2.2.1, fun hz => h2.2.2 exK2 hz⟩

end Codeface
